import Mathlib

/-!
Verification of the download/install/update task queue of
`src/backend/hyperplay/games.ts` (the download-manager section): a shallow
embedding of the data model and the four public operations
(`initQueue`, `addToQueue`, `removeFromQueue`, `getQueueInformation`)
together with the private helpers (`getFirstQueueElement`, `addToFinished`),
and theorems about the queue invariants, the processing loop, dispatch and
error handling.

The persistent store's two keys (`queue`, `finished`) are modelled as
`Option (List DMQueueElement)` fields (`none` = key absent, matching
`has`/`delete`/`get key default` semantics); frontend notifications and log
lines are accumulated into lists so that emission can be reasoned about.
-/

namespace HyperPlayDM

/-- `DMStatus`: `'done' | 'error' | 'abort'`. -/
inductive DMStatus where
  | done
  | error
  | abort
deriving DecidableEq, Repr

/-- `DownloadManagerState`: `'idle' | 'running'`. -/
inductive DownloadManagerState where
  | idle
  | running
deriving DecidableEq, Repr

/-- The slice of `GameInfo` the queue code reads (`params.gameInfo.title`). -/
structure DMGameInfo where
  title : String
deriving DecidableEq, Repr

/-- The slice of the task's `params` the queue code reads and writes:
`appName`, `runner` (a string tag: `'gog' | 'legendary' | 'hyperplay' | ...`),
`path`, `platformToInstall`, the mutable `size?` field, and `gameInfo`. -/
structure InstallParams where
  appName : String
  runner : String
  path : String
  platformToInstall : String
  size : Option String
  gameInfo : DMGameInfo
deriving DecidableEq, Repr

/-- `DMQueueElement`: one queue task. `type` is
`'install' | 'update' | 'download'` as a string tag; `status` is present only
once finished (and in TS may be `undefined` even then, hence `Option`). -/
structure DMQueueElement where
  type : String
  params : InstallParams
  startTime : Nat
  endTime : Nat
  status : Option DMStatus
deriving DecidableEq, Repr

/-- Frontend notifications (`sendFrontendMessage`). `gameStatusUpdate`
carries optional `runner`/`folder` because `removeFromQueue` omits them. -/
inductive FrontendMessage where
  | gameStatusUpdate (appName : String) (runner : Option String)
      (folder : Option String) (status : String)
  | changedDMQueueInformation (queue : List DMQueueElement)
deriving DecidableEq, Repr

/-- The whole mutable state the download-manager module touches: the
persistent store's `queue` and `finished` keys (`none` = key absent), the
module-level `queueState` flag, and the accumulated notifications and log
lines. -/
structure DMState where
  queueKey : Option (List DMQueueElement)
  finishedKey : Option (List DMQueueElement)
  queueState : DownloadManagerState
  messages : List FrontendMessage
  log : List String
deriving DecidableEq, Repr

/-- Process start: store empty, `queueState = 'idle'`, nothing emitted. -/
def initialState : DMState :=
  { queueKey := none
    finishedKey := none
    queueState := DownloadManagerState.idle
    messages := []
    log := [] }

/-- `manifest` object returned by `getInstallInfo` (only `download_size` is
read; the JS truthiness test treats `0` like absent). -/
structure Manifest where
  download_size : Nat
deriving DecidableEq, Repr

/-- `getInstallInfo` result; both the result and its `manifest` field may be
absent (`installInfo?.manifest?.download_size`). -/
structure InstallInfo where
  manifest : Option Manifest
deriving DecidableEq, Repr

/-- Modelled from the spec: the runner-dispatch collaborators invoked by the
loop are not under `src/` (`getGame(...).getInstallInfo` and `getFileSize`
live in `backend/utils`, `installQueueElement`/`updateQueueElement` in
`backend/downloadmanager/utils`, `downloadGame` in
`backend/hyperplay/library`). Per spec §6 all four operations may fail and
"failures must be converted to `status='error'`", and `getInstallInfo`
returns `{ manifest } | undefined`; so they are modelled as total functions:
a failing operation surfaces as a returned `DMStatus.error`/`abort`, a
failing lookup as `none`. `now` stands for `Date.now()`. -/
structure Env where
  getInstallInfo : String → String → String → Option InstallInfo
  getFileSize : Nat → String
  installQueueElement : InstallParams → DMStatus
  updateQueueElement : InstallParams → DMStatus
  downloadGame : String → DMStatus
  now : Nat

/-- `Array.prototype.findIndex`, returning `some i` instead of a
non-negative index and `none` instead of `-1`. -/
def findIdxOpt (p : α → Bool) : List α → Option Nat
  | [] => none
  | x :: xs => if p x then some 0 else (findIdxOpt p xs).map (· + 1)

/-- The dedup predicate both `addToQueue` and `addToFinished` use:
`el.params.appName === element.params.appName`. -/
def sameAppName (element : DMQueueElement) : DMQueueElement → Bool :=
  fun el => el.params.appName == element.params.appName

/-- Shared shape of the two dedup writers: find the first index whose element
satisfies `p`; overwrite it with `replacement` if found
(`elements[i] = ...`), else push `newEntry` (`elements.push(...)`). -/
def upsertBy (p : α → Bool) (replacement newEntry : α) (l : List α) :
    List α :=
  match findIdxOpt p l with
  | some i => l.set i replacement
  | none => l ++ [newEntry]

/-- `elements[0] = element` on a JS array: replaces the head, or creates the
element at index 0 when the array is empty. -/
def setFirst (l : List α) (a : α) : List α :=
  match l with
  | [] => [a]
  | _ :: xs => a :: xs

/-- The store's `queue` contents (`downloadManager.get('queue', [])`). -/
def queueOf (s : DMState) : List DMQueueElement :=
  s.queueKey.getD []

/-- The store's `finished` contents
(`downloadManager.get('finished', [])`). -/
def finishedOf (s : DMState) : List DMQueueElement :=
  s.finishedKey.getD []

/-- `getFirstQueueElement`: `elements.at(0) ?? null`. -/
def getFirstQueueElement (s : DMState) : Option DMQueueElement :=
  (queueOf s).head?

/-- `addToFinished(element, status)`: dedup-by-`appName` write into the
`finished` key. On the overwrite path the stored status is
`status ?? 'abort'`; on the push path the possibly-nullish `status` is stored
as is. -/
def addToFinished (s : DMState) (element : DMQueueElement)
    (status : Option DMStatus) : DMState :=
  let elements := finishedOf s
  let elements := upsertBy (sameAppName element)
    { element with status := some (status.getD DMStatus.abort) }
    { element with status := status } elements
  { s with
    finishedKey := some elements
    log := s.log ++
      [element.params.appName ++ " added to download manager finished."] }

/-- The size-resolution step of the loop body (`initQueue` lines 100-110):
manifest-based runners (`gog`/`legendary`) ask `getInstallInfo` and fall back
to `'?? MB'` whenever no truthy `download_size` comes back; every other
runner gets `'?? MB'` directly. -/
def resolveSize (env : Env) (element : DMQueueElement) : DMQueueElement :=
  if element.params.runner == "gog" || element.params.runner == "legendary"
  then
    let installInfo := env.getInstallInfo element.params.appName
      element.params.runner element.params.platformToInstall
    let size :=
      match installInfo with
      | some info =>
        match info.manifest with
        | some m =>
          if m.download_size != 0 then env.getFileSize m.download_size
          else "?? MB"
        | none => "?? MB"
      | none => "?? MB"
    { element with params := { element.params with size := some size } }
  else
    { element with params := { element.params with size := some "?? MB" } }

/-- The dispatch conditional of the loop body (`initQueue` lines 115-119):
`(runner, type)` decides which operation runs; unknown combinations
synthesize `{ status: 'error' }` without any runner call. -/
def dispatchStatus (env : Env) (element : DMQueueElement) : DMStatus :=
  if (element.params.runner == "gog" ||
      element.params.runner == "legendary") && element.type == "install" then
    env.installQueueElement element.params
  else if (element.params.runner == "gog" ||
      element.params.runner == "legendary") && element.type == "update" then
    env.updateQueueElement element.params
  else if element.params.runner == "hyperplay" then
    env.downloadGame element.params.appName
  else
    DMStatus.error

/-- `removeFromQueue(appName)`: guarded by
`appName && downloadManager.has('queue')`; inside the guard the store is
rewritten only when a match was spliced out, but the `status: 'done'`
notification, the log line and the queue-changed notification are emitted
either way. Outside the guard nothing happens at all. -/
def removeFromQueue (s : DMState) (appName : String) : DMState :=
  if appName ≠ "" ∧ s.queueKey.isSome then
    let elements := queueOf s
    match findIdxOpt (fun queueElement =>
        queueElement.params.appName == appName) elements with
    | some index =>
      let elements := elements.eraseIdx index
      { s with
        queueKey := some elements
        messages := s.messages ++
          [FrontendMessage.gameStatusUpdate appName none none "done",
           FrontendMessage.changedDMQueueInformation elements]
        log := s.log ++ [appName ++ " removed from download manager."] }
    | none =>
      { s with
        messages := s.messages ++
          [FrontendMessage.gameStatusUpdate appName none none "done",
           FrontendMessage.changedDMQueueInformation elements]
        log := s.log ++ [appName ++ " removed from download manager."] }
  else s

/-- One iteration of the `while (element)` body of `initQueue`: publish the
queue, resolve `params.size`, stamp `startTime`, write the mutated head back
(`queuedElements[0] = element`), dispatch, stamp `endTime`, record in
`finished`, remove from the queue. -/
def processElement (env : Env) (s : DMState) (element : DMQueueElement) :
    DMState :=
  let queuedElements := queueOf s
  let s := { s with messages := s.messages ++
    [FrontendMessage.changedDMQueueInformation queuedElements] }
  let element := resolveSize env element
  let element := { element with startTime := env.now }
  let queuedElements := setFirst queuedElements element
  let s := { s with queueKey := some queuedElements }
  let status := dispatchStatus env element
  let element := { element with endTime := env.now }
  let s := addToFinished s element (some status)
  removeFromQueue s element.params.appName

/-- `queueState = element ? 'running' : 'idle'` at the top of
`initQueue`. -/
def initQueueEnter (s : DMState) : DMState :=
  { s with queueState :=
      if (getFirstQueueElement s).isSome then DownloadManagerState.running
      else DownloadManagerState.idle }

/-- The `while (element)` loop of `initQueue`, fuelled: each round re-reads
the head and runs `processElement` on it. -/
def initQueueLoop (env : Env) : Nat → DMState → DMState
  | 0, s => s
  | fuel + 1, s =>
    match getFirstQueueElement s with
    | none => s
    | some element => initQueueLoop env fuel (processElement env s element)

/-- `initQueue()`: set `queueState` from the first head, run the loop, and
finish with `queueState = 'idle'`. -/
def initQueue (env : Env) (fuel : Nat) (s : DMState) : DMState :=
  let s := initQueueEnter s
  let s := initQueueLoop env fuel s
  { s with queueState := DownloadManagerState.idle }

/-- The synchronous mutations of `addToQueue` on a non-nullish element:
`status: 'queued'` notification, dedup insert into the `queue` key, log,
queue-changed notification. -/
def addToQueueSync (s : DMState) (element : DMQueueElement) : DMState :=
  let s := { s with messages := s.messages ++
    [FrontendMessage.gameStatusUpdate element.params.appName
      (some element.params.runner) (some element.params.path) "queued"] }
  let elements := queueOf s
  let elements := upsertBy (sameAppName element) element element elements
  let s := { s with
    queueKey := some elements
    log := s.log ++
      [element.params.gameInfo.title ++ " was added to the download queue."] }
  { s with messages := s.messages ++
    [FrontendMessage.changedDMQueueInformation elements] }

/-- `addToQueue(element)`: a nullish element is rejected with only a log
line (`if (!element) { logError(...); return }`); otherwise the synchronous
mutations run and, when `queueState === 'idle'`, `initQueue()` is kicked
off. -/
def addToQueue (env : Env) (fuel : Nat) (s : DMState)
    (element : Option DMQueueElement) : DMState :=
  match element with
  | none =>
    { s with log := s.log ++ ["Can not add undefined element to queue!"] }
  | some element =>
    let s := addToQueueSync s element
    if s.queueState = DownloadManagerState.idle then initQueue env fuel s
    else s

/-- `getQueueInformation()`: the read-only snapshot
`{ elements, finished }`. -/
def getQueueInformation (s : DMState) :
    List DMQueueElement × List DMQueueElement :=
  (queueOf s, finishedOf s)

/-- External entry points into the manager, for stating "after any sequence
of operations" invariants. -/
inductive DMOp where
  | enqueue (element : Option DMQueueElement)
  | remove (appName : String)

/-- Run one external entry point. -/
def runOp (env : Env) (fuel : Nat) (s : DMState) : DMOp → DMState
  | DMOp.enqueue element => addToQueue env fuel s element
  | DMOp.remove appName => removeFromQueue s appName

/-- Run a sequence of external entry points. -/
def runOps (env : Env) (fuel : Nat) (ops : List DMOp) (s : DMState) :
    DMState :=
  ops.foldl (runOp env fuel) s

/-- The dedup invariant: no two entries share an `appName`. -/
def nodupAppNames (l : List DMQueueElement) : Prop :=
  (l.map (fun e => e.params.appName)).Nodup

instance (l : List DMQueueElement) : Decidable (nodupAppNames l) :=
  List.nodupDecidable _

/-- The head element as written back by `queuedElements[0] = element`:
size resolved, `startTime` stamped. -/
def processedHead (env : Env) (element : DMQueueElement) : DMQueueElement :=
  { resolveSize env element with startTime := env.now }

/-- The record `addToFinished` receives for the head: `endTime` stamped and
`status` set to the dispatched outcome. -/
def finishedRecord (env : Env) (element : DMQueueElement) : DMQueueElement :=
  { processedHead env element with
    endTime := env.now
    status := some (dispatchStatus env (processedHead env element)) }

/-! ### Concrete fixtures used by witnesses and counterexamples -/

/-- A concrete collaborator environment: the size lookup fails (returns
`undefined`), install succeeds, update aborts, the web download fails. -/
def env0 : Env :=
  { getInstallInfo := fun _ _ _ => none
    getFileSize := fun n => toString n ++ " MB"
    installQueueElement := fun _ => DMStatus.done
    updateQueueElement := fun _ => DMStatus.abort
    downloadGame := fun _ => DMStatus.error
    now := 7 }

/-- A concrete environment whose size lookup succeeds. -/
def env1 : Env :=
  { env0 with
    getInstallInfo := fun _ _ _ => some { manifest := some { download_size := 42 } } }

/-- Build a concrete task. -/
def mkTask (name runner ty : String) : DMQueueElement :=
  { type := ty
    params :=
      { appName := name
        runner := runner
        path := "/games"
        platformToInstall := "Windows"
        size := none
        gameInfo := { title := name } }
    startTime := 0
    endTime := 0
    status := none }

/-- A task whose `appName` is the empty string. -/
def taskBlank : DMQueueElement := mkTask "" "hyperplay" "download"

/-- A manifest-runner install task. -/
def taskG1 : DMQueueElement := mkTask "g1" "gog" "install"

/-- A second enqueue for `g1` (same `appName`, different operation). -/
def taskG1b : DMQueueElement := mkTask "g1" "gog" "update"

/-- A web-runner download task. -/
def taskG2 : DMQueueElement := mkTask "g2" "hyperplay" "download"

/-- A task not present in any fixture queue. -/
def taskG3 : DMQueueElement := mkTask "g3" "legendary" "install"

/-- An idle state with `g1` and `g2` pending. -/
def stateIdleQ : DMState :=
  { queueKey := some [taskG1, taskG2]
    finishedKey := none
    queueState := DownloadManagerState.idle
    messages := []
    log := [] }

/-- A running state with an empty store. -/
def stateRun : DMState :=
  { initialState with queueState := DownloadManagerState.running }

/-- A running state whose queue head has an empty `appName`. -/
def stateBlankHead : DMState :=
  { queueKey := some [taskBlank, taskG2]
    finishedKey := none
    queueState := DownloadManagerState.running
    messages := []
    log := [] }

/-- A state whose finished history already holds an entry for `g1`. -/
def stateFin : DMState :=
  { queueKey := none
    finishedKey := some [{ taskG1 with status := some DMStatus.done }]
    queueState := DownloadManagerState.idle
    messages := []
    log := [] }

/-! ### Helper lemmas about `findIdxOpt`, `upsertBy`, `setFirst` -/

theorem findIdxOpt_lt_length {p : α → Bool} :
    ∀ {l : List α} {i : Nat}, findIdxOpt p l = some i → i < l.length := by
  intro l
  induction l with
  | nil => intro i h; simp [findIdxOpt] at h
  | cons x xs ih =>
    intro i h
    simp only [findIdxOpt] at h
    by_cases hx : p x = true
    · simp [hx] at h
      simp [← h]
    · simp [hx] at h
      obtain ⟨j, hj, rfl⟩ := h
      have := ih hj
      simp only [List.length_cons]
      omega

theorem findIdxOpt_some_getElem {p : α → Bool} :
    ∀ {l : List α} {i : Nat}, findIdxOpt p l = some i →
      ∃ x, l[i]? = some x ∧ p x = true := by
  intro l
  induction l with
  | nil => intro i h; simp [findIdxOpt] at h
  | cons x xs ih =>
    intro i h
    simp only [findIdxOpt] at h
    by_cases hx : p x = true
    · simp [hx] at h
      subst h
      exact ⟨x, by simp, hx⟩
    · simp [hx] at h
      obtain ⟨j, hj, rfl⟩ := h
      obtain ⟨y, hy, hpy⟩ := ih hj
      exact ⟨y, by simpa using hy, hpy⟩

theorem findIdxOpt_eq_none {p : α → Bool} :
    ∀ {l : List α}, findIdxOpt p l = none ↔ ∀ x ∈ l, p x = false := by
  intro l
  induction l with
  | nil => simp [findIdxOpt]
  | cons x xs ih =>
    by_cases hx : p x = true
    · simp [findIdxOpt, hx]
    · simp [findIdxOpt, hx, ih]

theorem findIdxOpt_isSome_of_mem {p : α → Bool} {l : List α} {x : α}
    (hx : x ∈ l) (hpx : p x = true) : ∃ i, findIdxOpt p l = some i := by
  cases h : findIdxOpt p l with
  | none =>
    have := findIdxOpt_eq_none.mp h x hx
    rw [hpx] at this
    exact absurd this (by simp)
  | some i => exact ⟨i, rfl⟩

theorem set_of_getElem? :
    ∀ (l : List α) (i : Nat) (a : α), l[i]? = some a → l.set i a = l := by
  intro l
  induction l with
  | nil => intro i a h; simp at h
  | cons x xs ih =>
    intro i a h
    cases i with
    | zero => simp at h; simp [h]
    | succ j =>
      simp at h
      simp [List.set_cons_succ, ih j a h]

theorem nodup_map_upsertBy {key : α → β} {p : α → Bool} {r n : α}
    {l : List α} (hp : ∀ x, p x = true → key x = key r)
    (hnone : findIdxOpt p l = none → key n ∉ l.map key)
    (h : (l.map key).Nodup) : ((upsertBy p r n l).map key).Nodup := by
  unfold upsertBy
  cases hidx : findIdxOpt p l with
  | some i =>
    obtain ⟨x, hx, hpx⟩ := findIdxOpt_some_getElem hidx
    have hkey : key x = key r := hp x hpx
    have hmap : (l.map key)[i]? = some (key r) := by
      rw [List.getElem?_map, hx]
      simp [hkey]
    rw [List.map_set, set_of_getElem? (l.map key) i (key r) hmap]
    exact h
  | none =>
    simp only [List.map_append, List.map_cons, List.map_nil]
    refine ((List.perm_append_singleton (key n) (l.map key)).nodup_iff).mpr ?_
    rw [List.nodup_cons]
    exact ⟨hnone hidx, h⟩

theorem mem_upsertBy_self (p : α → Bool) (r : α) (l : List α) :
    r ∈ upsertBy p r r l := by
  cases h : findIdxOpt p l with
  | some i =>
    have hi : i < l.length := findIdxOpt_lt_length h
    have hl : i < (l.set i r).length := by simpa using hi
    have hr : (l.set i r)[i] = r := List.getElem_set_self hl
    have hm : (l.set i r)[i] ∈ l.set i r := List.getElem_mem hl
    rw [hr] at hm
    simpa [upsertBy, h] using hm
  | none => simp [upsertBy, h]

/-! ### Frame lemmas: which state components each operation touches -/

theorem queueOf_addToFinished (s : DMState) (e : DMQueueElement)
    (st : Option DMStatus) : queueOf (addToFinished s e st) = queueOf s := rfl

theorem queueState_addToFinished (s : DMState) (e : DMQueueElement)
    (st : Option DMStatus) :
    (addToFinished s e st).queueState = s.queueState := rfl

theorem finishedOf_removeFromQueue (s : DMState) (a : String) :
    finishedOf (removeFromQueue s a) = finishedOf s := by
  simp only [removeFromQueue]
  split
  · split <;> rfl
  · rfl

theorem queueState_removeFromQueue (s : DMState) (a : String) :
    (removeFromQueue s a).queueState = s.queueState := by
  simp only [removeFromQueue]
  split
  · split <;> rfl
  · rfl

theorem removeFromQueue_empty_name (s : DMState) :
    removeFromQueue s "" = s := by
  simp [removeFromQueue]

theorem removeFromQueue_no_queueKey (s : DMState) (a : String)
    (h : s.queueKey = none) : removeFromQueue s a = s := by
  simp [removeFromQueue, h]

theorem queueOf_removeFromQueue_cons (s : DMState) (x : DMQueueElement)
    (t : List DMQueueElement) (a : String) (hq : s.queueKey = some (x :: t))
    (hx : x.params.appName = a) :
    queueOf (removeFromQueue s a) = if a = "" then x :: t else t := by
  by_cases ha : a = ""
  · rw [ha, removeFromQueue_empty_name]
    simp [queueOf, hq, ha]
  · have hguard : a ≠ "" ∧ s.queueKey.isSome := ⟨ha, by simp [hq]⟩
    have hfind : findIdxOpt
        (fun queueElement => queueElement.params.appName == a)
        (queueOf s) = some 0 := by
      simp [queueOf, hq, findIdxOpt, hx]
    simp only [removeFromQueue, if_pos hguard, hfind]
    simp [queueOf, hq, ha]

theorem queueOf_addToQueueSync (s : DMState) (e : DMQueueElement) :
    queueOf (addToQueueSync s e) =
      upsertBy (sameAppName e) e e (queueOf s) := rfl

theorem finishedOf_addToQueueSync (s : DMState) (e : DMQueueElement) :
    finishedOf (addToQueueSync s e) = finishedOf s := rfl

theorem queueState_addToQueueSync (s : DMState) (e : DMQueueElement) :
    (addToQueueSync s e).queueState = s.queueState := rfl

theorem queueOf_initQueueEnter (s : DMState) :
    queueOf (initQueueEnter s) = queueOf s := rfl

theorem finishedOf_initQueueEnter (s : DMState) :
    finishedOf (initQueueEnter s) = finishedOf s := rfl

/-! ### The mutated head and its finished record -/

theorem appName_resolveSize (env : Env) (e : DMQueueElement) :
    (resolveSize env e).params.appName = e.params.appName := by
  unfold resolveSize
  split <;> rfl

theorem appName_processedHead (env : Env) (e : DMQueueElement) :
    (processedHead env e).params.appName = e.params.appName :=
  appName_resolveSize env e

theorem appName_finishedRecord (env : Env) (e : DMQueueElement) :
    (finishedRecord env e).params.appName = e.params.appName :=
  appName_resolveSize env e

/-! ### The queue and history after one loop iteration -/

theorem queueOf_processElement (env : Env) (s : DMState) (e : DMQueueElement)
    (h : getFirstQueueElement s = some e) :
    queueOf (processElement env s e) =
      if e.params.appName = "" then processedHead env e :: (queueOf s).tail
      else (queueOf s).tail := by
  obtain ⟨t, ht⟩ := List.head?_eq_some_iff.mp h
  simp only [processElement]
  rw [queueOf_removeFromQueue_cons _ (processedHead env e) t]
  · rw [ht]
    simp [appName_resolveSize]
  · show some (setFirst (queueOf s) (processedHead env e)) =
      some (processedHead env e :: t)
    rw [ht]
    rfl
  · rfl

theorem finishedRecord_mem_processElement (env : Env) (s : DMState)
    (e : DMQueueElement) :
    finishedRecord env e ∈ finishedOf (processElement env s e) := by
  simp only [processElement]
  rw [finishedOf_removeFromQueue]
  exact mem_upsertBy_self _ _ _

/-! ### Preservation of the dedup invariant -/

theorem nodupAppNames_upsertBy_same {e r n : DMQueueElement}
    {l : List DMQueueElement} (hr : r.params.appName = e.params.appName)
    (hn : n.params.appName = e.params.appName) (h : nodupAppNames l) :
    nodupAppNames (upsertBy (sameAppName e) r n l) := by
  refine nodup_map_upsertBy ?_ ?_ h
  · intro x hx
    rw [hr]
    exact beq_iff_eq.mp hx
  · intro hnone hmem
    obtain ⟨y, hy, hky⟩ := List.mem_map.mp hmem
    have := findIdxOpt_eq_none.mp hnone y hy
    rw [show sameAppName e y = (y.params.appName == e.params.appName) from rfl,
      hky, hn] at this
    simp at this

theorem nodupAppNames_addToQueueSync (s : DMState) (e : DMQueueElement)
    (h : nodupAppNames (queueOf s)) :
    nodupAppNames (queueOf (addToQueueSync s e)) := by
  rw [queueOf_addToQueueSync]
  exact nodupAppNames_upsertBy_same rfl rfl h

theorem nodupAppNames_addToFinished (s : DMState) (e : DMQueueElement)
    (st : Option DMStatus) (h : nodupAppNames (finishedOf s)) :
    nodupAppNames (finishedOf (addToFinished s e st)) :=
  nodupAppNames_upsertBy_same rfl rfl h

theorem nodupAppNames_removeFromQueue (s : DMState) (a : String)
    (h : nodupAppNames (queueOf s)) :
    nodupAppNames (queueOf (removeFromQueue s a)) := by
  simp only [removeFromQueue]
  split
  · split
    · exact List.Nodup.sublist ((List.eraseIdx_sublist _ _).map _) h
    · exact h
  · exact h

theorem nodupAppNames_queue_processElement (env : Env) (s : DMState)
    (e : DMQueueElement) (h : getFirstQueueElement s = some e)
    (hq : nodupAppNames (queueOf s)) :
    nodupAppNames (queueOf (processElement env s e)) := by
  rw [queueOf_processElement env s e h]
  obtain ⟨t, ht⟩ := List.head?_eq_some_iff.mp h
  rw [ht] at hq ⊢
  unfold nodupAppNames at hq ⊢
  split
  · simp only [List.tail_cons, List.map_cons] at hq ⊢
    rw [appName_processedHead]
    exact hq
  · simp only [List.tail_cons]
    simp only [List.map_cons, List.nodup_cons] at hq
    exact hq.2

theorem nodupAppNames_finished_processElement (env : Env) (s : DMState)
    (e : DMQueueElement) (hf : nodupAppNames (finishedOf s)) :
    nodupAppNames (finishedOf (processElement env s e)) := by
  simp only [processElement]
  rw [finishedOf_removeFromQueue]
  exact nodupAppNames_addToFinished _ _ _ hf

theorem nodup_initQueueLoop (env : Env) :
    ∀ (fuel : Nat) (s : DMState), nodupAppNames (queueOf s) →
      nodupAppNames (finishedOf s) →
      nodupAppNames (queueOf (initQueueLoop env fuel s)) ∧
        nodupAppNames (finishedOf (initQueueLoop env fuel s)) := by
  intro fuel
  induction fuel with
  | zero => intro s hq hf; exact ⟨hq, hf⟩
  | succ n ih =>
    intro s hq hf
    simp only [initQueueLoop]
    cases h : getFirstQueueElement s with
    | none => exact ⟨hq, hf⟩
    | some e =>
      exact ih _ (nodupAppNames_queue_processElement env s e h hq)
        (nodupAppNames_finished_processElement env s e hf)

theorem nodup_initQueue (env : Env) (fuel : Nat) (s : DMState)
    (hq : nodupAppNames (queueOf s)) (hf : nodupAppNames (finishedOf s)) :
    nodupAppNames (queueOf (initQueue env fuel s)) ∧
      nodupAppNames (finishedOf (initQueue env fuel s)) :=
  nodup_initQueueLoop env fuel (initQueueEnter s) hq hf

theorem nodup_addToQueue (env : Env) (fuel : Nat) (s : DMState)
    (el : Option DMQueueElement) (hq : nodupAppNames (queueOf s))
    (hf : nodupAppNames (finishedOf s)) :
    nodupAppNames (queueOf (addToQueue env fuel s el)) ∧
      nodupAppNames (finishedOf (addToQueue env fuel s el)) := by
  cases el with
  | none => exact ⟨hq, hf⟩
  | some e =>
    simp only [addToQueue]
    have hq' := nodupAppNames_addToQueueSync s e hq
    have hf' : nodupAppNames (finishedOf (addToQueueSync s e)) := by
      rw [finishedOf_addToQueueSync]; exact hf
    split
    · exact nodup_initQueue env fuel _ hq' hf'
    · exact ⟨hq', hf'⟩

theorem nodup_runOps (env : Env) (fuel : Nat) :
    ∀ (ops : List DMOp) (s : DMState), nodupAppNames (queueOf s) →
      nodupAppNames (finishedOf s) →
      nodupAppNames (queueOf (runOps env fuel ops s)) ∧
        nodupAppNames (finishedOf (runOps env fuel ops s)) := by
  intro ops
  induction ops with
  | nil => intro s hq hf; exact ⟨hq, hf⟩
  | cons op rest ih =>
    intro s hq hf
    simp only [runOps, List.foldl_cons]
    cases op with
    | enqueue el =>
      obtain ⟨h1, h2⟩ := nodup_addToQueue env fuel s el hq hf
      exact ih _ h1 h2
    | remove a =>
      simp only [runOp]
      refine ih _ (nodupAppNames_removeFromQueue s a hq) ?_
      rw [finishedOf_removeFromQueue]
      exact hf

/-! ### The loop drains the queue -/

theorem queueOf_initQueueLoop_drained (env : Env) :
    ∀ (fuel : Nat) (s : DMState),
      (∀ x ∈ queueOf s, x.params.appName ≠ "") →
      (queueOf s).length ≤ fuel →
      queueOf (initQueueLoop env fuel s) = [] := by
  intro fuel
  induction fuel with
  | zero =>
    intro s _ hlen
    have h0 : queueOf s = [] :=
      List.eq_nil_of_length_eq_zero (Nat.le_zero.mp hlen)
    simpa [initQueueLoop] using h0
  | succ n ih =>
    intro s hname hlen
    simp only [initQueueLoop]
    cases h : getFirstQueueElement s with
    | none => exact List.head?_eq_none_iff.mp h
    | some e =>
      obtain ⟨t, ht⟩ := List.head?_eq_some_iff.mp h
      have hne : e.params.appName ≠ "" :=
        hname e (by rw [ht]; exact List.mem_cons_self e t)
      have hq' : queueOf (processElement env s e) = t := by
        rw [queueOf_processElement env s e h, if_neg hne, ht]
        rfl
      apply ih
      · intro x hx
        rw [hq'] at hx
        exact hname x (by rw [ht]; exact List.mem_cons_of_mem e hx)
      · rw [hq']
        have hlt : (queueOf s).length = t.length + 1 := by rw [ht]; rfl
        omega

theorem initQueue_drained (env : Env) (fuel : Nat) (s : DMState)
    (hname : ∀ x ∈ queueOf s, x.params.appName ≠ "")
    (hlen : (queueOf s).length ≤ fuel) :
    queueOf (initQueue env fuel s) = [] ∧
      (initQueue env fuel s).queueState = DownloadManagerState.idle := by
  refine ⟨?_, rfl⟩
  exact queueOf_initQueueLoop_drained env fuel (initQueueEnter s) hname hlen

/-! ### Claim C1 -/

/-- C1 counterexample: the claim quantifies over every queue state and head
task, but a head task whose `appName` is the empty string is never removed:
`removeFromQueue` is a no-op on an empty name, so after the iteration the
head is still the (mutated) blank task, not the next pending task `taskG2` —
the loop does not advance even though the dispatched operation reported
`status = 'error'`. -/
theorem C1_counterexample :
    taskBlank.params.appName = "" ∧
    getFirstQueueElement stateBlankHead = some taskBlank ∧
    dispatchStatus env0 (processedHead env0 taskBlank) = DMStatus.error ∧
    queueOf (processElement env0 stateBlankHead taskBlank) =
      [processedHead env0 taskBlank, taskG2] ∧
    getFirstQueueElement (processElement env0 stateBlankHead taskBlank) ≠
      some taskG2 := by
  decide

/-- C1 (amended): for every queue state and every head task **with a
non-empty `appName`**, the loop iteration records the status returned by the
dispatched runner operation (in particular `'error'` on failure, `'abort'`
on cancellation) for that task in Finished history and advances to the next
pending task; with the runner operations modelled as total (spec §6:
failures are converted to returned statuses), no fault escapes the loop, and
when every queued `appName` is non-empty the loop terminates with the queue
observed empty and the manager idle. A head task with an empty `appName` is
re-processed forever. -/
theorem C1_loop_records_and_advances :
    (∀ (env : Env) (s : DMState) (e : DMQueueElement),
      getFirstQueueElement s = some e → e.params.appName ≠ "" →
      queueOf (processElement env s e) = (queueOf s).tail ∧
      ∃ fe ∈ finishedOf (processElement env s e),
        fe.params.appName = e.params.appName ∧
        fe.status = some (dispatchStatus env (processedHead env e)))
    ∧ (∀ (env : Env) (fuel : Nat) (s : DMState),
      (∀ x ∈ queueOf s, x.params.appName ≠ "") →
      (queueOf s).length ≤ fuel →
      queueOf (initQueue env fuel s) = [] ∧
        (initQueue env fuel s).queueState = DownloadManagerState.idle) := by
  constructor
  · intro env s e h hne
    constructor
    · rw [queueOf_processElement env s e h, if_neg hne]
    · exact ⟨finishedRecord env e, finishedRecord_mem_processElement env s e,
        appName_finishedRecord env e, rfl⟩
  · intro env fuel s hname hlen
    exact initQueue_drained env fuel s hname hlen

/-- C1 witness: processing the head `g1` of the concrete two-task queue
advances to `[g2]`, and running the whole loop with enough fuel empties the
queue. -/
theorem C1_loop_records_and_advances_witness :
    queueOf (processElement env0 stateIdleQ taskG1) = [taskG2] ∧
    queueOf (initQueue env0 2 stateIdleQ) = [] := by
  constructor
  · have h := (C1_loop_records_and_advances.1 env0 stateIdleQ taskG1
      (by decide) (by decide)).1
    exact h.trans (by decide)
  · exact (C1_loop_records_and_advances.2 env0 2 stateIdleQ (by decide)
      (by decide)).1

/-! ### Claim C2 -/

/-- C2: `addToQueue` on a task whose `appName` already sits in the pending
queue replaces it at its current index — length unchanged, every other
position unchanged; otherwise it appends at the tail; and after any sequence
of public operations started from the initial state the pending queue never
holds two entries with the same `appName`. -/
theorem C2_enqueue_replaces_or_appends :
    (∀ (s : DMState) (e : DMQueueElement) (i : Nat),
      findIdxOpt (sameAppName e) (queueOf s) = some i →
      (queueOf (addToQueueSync s e)).length = (queueOf s).length ∧
      (queueOf (addToQueueSync s e))[i]? = some e ∧
      ∀ j, j ≠ i → (queueOf (addToQueueSync s e))[j]? = (queueOf s)[j]?)
    ∧ (∀ (s : DMState) (e : DMQueueElement),
      findIdxOpt (sameAppName e) (queueOf s) = none →
      queueOf (addToQueueSync s e) = queueOf s ++ [e])
    ∧ (∀ (env : Env) (fuel : Nat) (ops : List DMOp),
      nodupAppNames (queueOf (runOps env fuel ops initialState))) := by
  refine ⟨?_, ?_, ?_⟩
  · intro s e i h
    rw [queueOf_addToQueueSync]
    unfold upsertBy
    rw [h]
    refine ⟨by simp, ?_, ?_⟩
    · have hi : i < (queueOf s).length := findIdxOpt_lt_length h
      simp [hi]
    · intro j hj
      exact List.getElem?_set_ne (fun hh => hj hh.symm)
  · intro s e h
    rw [queueOf_addToQueueSync]
    unfold upsertBy
    rw [h]
  · intro env fuel ops
    exact (nodup_runOps env fuel ops initialState (by decide) (by decide)).1

/-- C2 witness: re-enqueuing `g1` into `[g1, g2]` keeps length 2 and leaves
position 1 untouched; enqueuing the fresh `g3` appends it at the tail. -/
theorem C2_enqueue_replaces_or_appends_witness :
    (queueOf (addToQueueSync stateIdleQ taskG1b)).length =
      (queueOf stateIdleQ).length ∧
    (queueOf (addToQueueSync stateIdleQ taskG1b))[1]? =
      (queueOf stateIdleQ)[1]? ∧
    queueOf (addToQueueSync stateIdleQ taskG3) =
      queueOf stateIdleQ ++ [taskG3] :=
  ⟨((C2_enqueue_replaces_or_appends.1 stateIdleQ taskG1b 0) (by decide)).1,
   ((C2_enqueue_replaces_or_appends.1 stateIdleQ taskG1b 0) (by decide)).2.2 1
     (by decide),
   (C2_enqueue_replaces_or_appends.2.1 stateIdleQ taskG3) (by decide)⟩

/-! ### Claim C3 -/

/-- C3: `addToFinished` keeps the history deduplicated by `appName`: an
existing entry with the task's `appName` is overwritten in place with the
new task carrying the dispatched status, otherwise the new entry is
appended; and after any sequence of public operations started from the
initial state the Finished history never holds two entries with the same
`appName`. -/
theorem C3_finished_deduplicated :
    (∀ (s : DMState) (e : DMQueueElement) (st : DMStatus) (i : Nat),
      findIdxOpt (sameAppName e) (finishedOf s) = some i →
      finishedOf (addToFinished s e (some st)) =
        (finishedOf s).set i { e with status := some st })
    ∧ (∀ (s : DMState) (e : DMQueueElement) (st : DMStatus),
      findIdxOpt (sameAppName e) (finishedOf s) = none →
      finishedOf (addToFinished s e (some st)) =
        finishedOf s ++ [{ e with status := some st }])
    ∧ (∀ (env : Env) (fuel : Nat) (ops : List DMOp),
      nodupAppNames (finishedOf (runOps env fuel ops initialState))) := by
  refine ⟨?_, ?_, ?_⟩
  · intro s e st i h
    show upsertBy (sameAppName e) { e with status := some st }
      { e with status := some st } (finishedOf s) = _
    unfold upsertBy
    rw [h]
  · intro s e st h
    show upsertBy (sameAppName e) { e with status := some st }
      { e with status := some st } (finishedOf s) = _
    unfold upsertBy
    rw [h]
  · intro env fuel ops
    exact (nodup_runOps env fuel ops initialState (by decide) (by decide)).2

/-- C3 witness: re-finishing `g1` overwrites the single history entry in
place; finishing it against an empty history appends one entry. -/
theorem C3_finished_deduplicated_witness :
    finishedOf (addToFinished stateFin taskG1b DMStatus.error) =
      [{ taskG1b with status := some DMStatus.error }] ∧
    finishedOf (addToFinished initialState taskG1 DMStatus.done) =
      [{ taskG1 with status := some DMStatus.done }] := by
  constructor
  · have h := C3_finished_deduplicated.1 stateFin taskG1b DMStatus.error 0
      (by decide)
    exact h.trans (by decide)
  · have h := C3_finished_deduplicated.2.1 initialState taskG1 DMStatus.done
      (by decide)
    exact h.trans (by decide)

/-! ### Claim C4 -/

/-- C4: the manager state starts `idle`; entering the loop sets it `running`
exactly when a head exists; `addToQueue` runs `initQueue` if and only if the
state at the moment of the call is `idle` (an enqueue while `running` only
performs the synchronous mutations); and with every queued `appName`
non-empty and sufficient fuel the state returns to `idle` exactly with the
queue observed empty. -/
theorem C4_manager_state_lifecycle :
    initialState.queueState = DownloadManagerState.idle
    ∧ (∀ s : DMState, (initQueueEnter s).queueState =
        if (getFirstQueueElement s).isSome then DownloadManagerState.running
        else DownloadManagerState.idle)
    ∧ (∀ (env : Env) (fuel : Nat) (s : DMState) (e : DMQueueElement),
        s.queueState = DownloadManagerState.running →
        addToQueue env fuel s (some e) = addToQueueSync s e)
    ∧ (∀ (env : Env) (fuel : Nat) (s : DMState) (e : DMQueueElement),
        s.queueState = DownloadManagerState.idle →
        addToQueue env fuel s (some e) =
          initQueue env fuel (addToQueueSync s e))
    ∧ (∀ (env : Env) (fuel : Nat) (s : DMState),
        (∀ x ∈ queueOf s, x.params.appName ≠ "") →
        (queueOf s).length ≤ fuel →
        (initQueue env fuel s).queueState = DownloadManagerState.idle ∧
          queueOf (initQueue env fuel s) = []) := by
  refine ⟨rfl, fun s => rfl, ?_, ?_, ?_⟩
  · intro env fuel s e h
    have hst : (addToQueueSync s e).queueState =
        DownloadManagerState.running := by
      rw [queueState_addToQueueSync]; exact h
    simp only [addToQueue]
    rw [if_neg (by simp [hst])]
  · intro env fuel s e h
    have hst : (addToQueueSync s e).queueState =
        DownloadManagerState.idle := by
      rw [queueState_addToQueueSync]; exact h
    simp only [addToQueue]
    rw [if_pos hst]
  · intro env fuel s hname hlen
    obtain ⟨h1, h2⟩ := initQueue_drained env fuel s hname hlen
    exact ⟨h2, h1⟩

/-- C4 witness: an enqueue on a running manager performs only the
synchronous mutations, and the drained loop on the concrete two-task queue
ends idle. -/
theorem C4_manager_state_lifecycle_witness :
    addToQueue env0 0 stateRun (some taskG2) = addToQueueSync stateRun taskG2
    ∧ (initQueue env0 2 stateIdleQ).queueState =
        DownloadManagerState.idle :=
  ⟨C4_manager_state_lifecycle.2.2.1 env0 0 stateRun taskG2 (by decide),
   (C4_manager_state_lifecycle.2.2.2.2 env0 2 stateIdleQ (by decide)
     (by decide)).1⟩

/-! ### Claim C5 -/

/-- C5: dispatch is a pure function of the `(runner, type)` pair:
`gog`/`legendary` + `install` invokes the install operation,
`gog`/`legendary` + `update` the update operation, `hyperplay` the download
operation whatever the type, and every other combination yields
`status = 'error'` with no runner operation invoked (the result is `error`
for every environment). -/
theorem C5_dispatch_table :
    ∀ (env : Env) (e : DMQueueElement),
      ((e.params.runner = "gog" ∨ e.params.runner = "legendary") →
        e.type = "install" →
        dispatchStatus env e = env.installQueueElement e.params)
      ∧ ((e.params.runner = "gog" ∨ e.params.runner = "legendary") →
        e.type = "update" →
        dispatchStatus env e = env.updateQueueElement e.params)
      ∧ (e.params.runner = "hyperplay" →
        dispatchStatus env e = env.downloadGame e.params.appName)
      ∧ ((e.params.runner = "gog" ∨ e.params.runner = "legendary") →
        e.type ≠ "install" → e.type ≠ "update" →
        dispatchStatus env e = DMStatus.error)
      ∧ (e.params.runner ≠ "gog" → e.params.runner ≠ "legendary" →
        e.params.runner ≠ "hyperplay" →
        dispatchStatus env e = DMStatus.error) := by
  intro env e
  refine ⟨?_, ?_, ?_, ?_, ?_⟩
  · intro hr ht
    cases hr with
    | inl h => simp [dispatchStatus, h, ht]
    | inr h => simp [dispatchStatus, h, ht]
  · intro hr ht
    cases hr with
    | inl h => simp [dispatchStatus, h, ht]
    | inr h => simp [dispatchStatus, h, ht]
  · intro hr
    simp [dispatchStatus, hr]
  · intro hr h1 h2
    cases hr with
    | inl h => simp [dispatchStatus, h, h1, h2]
    | inr h => simp [dispatchStatus, h, h1, h2]
  · intro h1 h2 h3
    simp [dispatchStatus, h1, h2, h3]

/-- C5 witness: on the concrete environment, the `gog` install task reaches
the install operation, the `hyperplay` download task reaches the download
operation, and a `gog` task with type `download` is synthesized to
`error`. -/
theorem C5_dispatch_table_witness :
    dispatchStatus env0 taskG1 = env0.installQueueElement taskG1.params ∧
    dispatchStatus env0 taskG2 = env0.downloadGame taskG2.params.appName ∧
    dispatchStatus env0 (mkTask "g9" "gog" "download") = DMStatus.error :=
  ⟨(C5_dispatch_table env0 taskG1).1 (Or.inl (by decide)) (by decide),
   (C5_dispatch_table env0 taskG2).2.2.1 (by decide),
   (C5_dispatch_table env0 (mkTask "g9" "gog" "download")).2.2.2.1
     (Or.inl (by decide)) (by decide) (by decide)⟩

/-! ### Claim C6 -/

/-- C6 counterexample: the guard is only `if (!element)`, so a non-null task
whose `appName` is the empty string is **not** rejected: it is pushed into
the pending queue and a `queued` notification is emitted, refuting the claim
that every task without a non-empty `appName` produces no state change and
no notification. -/
theorem C6_counterexample :
    taskBlank.params.appName = "" ∧
    queueOf (addToQueue env0 0 stateRun (some taskBlank)) = [taskBlank] ∧
    (addToQueue env0 0 stateRun (some taskBlank)).messages ≠
      stateRun.messages := by
  decide

/-- C6 (amended): `addToQueue` rejects only a nullish task: the rejection is
logged and produces no other state change — the pending queue, the Finished
history, the manager state and the emitted notifications are unchanged. A
non-null task is enqueued even when its `appName` is empty. -/
theorem C6_nullish_rejected :
    ∀ (env : Env) (fuel : Nat) (s : DMState),
      (addToQueue env fuel s none).queueKey = s.queueKey ∧
      (addToQueue env fuel s none).finishedKey = s.finishedKey ∧
      (addToQueue env fuel s none).queueState = s.queueState ∧
      (addToQueue env fuel s none).messages = s.messages ∧
      (addToQueue env fuel s none).log =
        s.log ++ ["Can not add undefined element to queue!"] :=
  fun _ _ _ => ⟨rfl, rfl, rfl, rfl, rfl⟩

/-! ### Claim C7 -/

/-- C7: for a manifest-based runner (`gog`/`legendary`) the loop resolves
`params.size` via `getInstallInfo`; whenever no size can be resolved — the
lookup fails (returns `undefined`), the manifest is absent, or the size is
not truthy — `params.size` falls back to `'?? MB'`; a truthy size goes
through `getFileSize`; runners without manifest lookup get the placeholder
directly; and in every case the task still proceeds into Finished history
rather than being aborted. -/
theorem C7_size_best_effort :
    ∀ (env : Env) (e : DMQueueElement),
      ((e.params.runner = "gog" ∨ e.params.runner = "legendary") →
        (env.getInstallInfo e.params.appName e.params.runner
            e.params.platformToInstall = none →
          (resolveSize env e).params.size = some "?? MB")
        ∧ (∀ info, env.getInstallInfo e.params.appName e.params.runner
            e.params.platformToInstall = some info → info.manifest = none →
          (resolveSize env e).params.size = some "?? MB")
        ∧ (∀ info m, env.getInstallInfo e.params.appName e.params.runner
            e.params.platformToInstall = some info →
          info.manifest = some m → m.download_size = 0 →
          (resolveSize env e).params.size = some "?? MB")
        ∧ (∀ info m, env.getInstallInfo e.params.appName e.params.runner
            e.params.platformToInstall = some info →
          info.manifest = some m → m.download_size ≠ 0 →
          (resolveSize env e).params.size =
            some (env.getFileSize m.download_size)))
      ∧ ((e.params.runner ≠ "gog" ∧ e.params.runner ≠ "legendary") →
        (resolveSize env e).params.size = some "?? MB")
      ∧ (∀ s : DMState, getFirstQueueElement s = some e →
        ∃ fe ∈ finishedOf (processElement env s e),
          fe.params.appName = e.params.appName) := by
  intro env e
  refine ⟨?_, ?_, ?_⟩
  · intro hr
    have hcond : (e.params.runner == "gog" ||
        e.params.runner == "legendary") = true := by
      cases hr with
      | inl h => simp [h]
      | inr h => simp [h]
    refine ⟨?_, ?_, ?_, ?_⟩
    · intro hnone
      simp [resolveSize, hcond, hnone]
    · intro info hinfo hman
      simp [resolveSize, hcond, hinfo, hman]
    · intro info m hinfo hman hzero
      simp [resolveSize, hcond, hinfo, hman, hzero]
    · intro info m hinfo hman hnz
      simp [resolveSize, hcond, hinfo, hman, hnz]
  · intro ⟨h1, h2⟩
    simp [resolveSize, h1, h2]
  · intro s h
    exact ⟨finishedRecord env e, finishedRecord_mem_processElement env s e,
      appName_finishedRecord env e⟩

/-- C7 witness: on the failing lookup the `gog` task gets `'?? MB'`; on the
succeeding lookup it gets the formatted 42; the `hyperplay` task gets the
placeholder directly. -/
theorem C7_size_best_effort_witness :
    (resolveSize env0 taskG1).params.size = some "?? MB" ∧
    (resolveSize env1 taskG1).params.size = some (env1.getFileSize 42) ∧
    (resolveSize env0 taskG2).params.size = some "?? MB" :=
  ⟨((C7_size_best_effort env0 taskG1).1 (Or.inl (by decide))).1 (by decide),
   ((C7_size_best_effort env1 taskG1).1 (Or.inl (by decide))).2.2.2
     { manifest := some { download_size := 42 } } { download_size := 42 }
     (by decide) (by decide) (by decide),
   (C7_size_best_effort env0 taskG2).2.1 ⟨by decide, by decide⟩⟩

/-! ### Claim C8 -/

/-- C8: `removeFromQueue` never modifies the Finished history or the manager
state; when no pending entry carries the given `appName` the pending queue
is also left unchanged; and when a matching entry exists (and the name is
non-empty) exactly one entry is removed. -/
theorem C8_remove_frame :
    ∀ (s : DMState) (a : String),
      (removeFromQueue s a).finishedKey = s.finishedKey
      ∧ (removeFromQueue s a).queueState = s.queueState
      ∧ ((∀ x ∈ queueOf s, x.params.appName ≠ a) →
        (removeFromQueue s a).queueKey = s.queueKey)
      ∧ (a ≠ "" → (∃ x ∈ queueOf s, x.params.appName = a) →
        (queueOf (removeFromQueue s a)).length + 1 = (queueOf s).length) := by
  intro s a
  refine ⟨?_, queueState_removeFromQueue s a, ?_, ?_⟩
  · simp only [removeFromQueue]
    split
    · split <;> rfl
    · rfl
  · intro habs
    simp only [removeFromQueue]
    split
    · cases hidx : findIdxOpt
          (fun queueElement => queueElement.params.appName == a)
          (queueOf s) with
      | some i =>
        obtain ⟨x, hx, hpx⟩ := findIdxOpt_some_getElem hidx
        have hmem : x ∈ queueOf s := by
          have hlt : i < (queueOf s).length := findIdxOpt_lt_length hidx
          have := List.getElem_mem hlt
          rwa [show (queueOf s)[i] = x from by
            have := (queueOf s).getElem?_eq_getElem hlt
            rw [this] at hx
            exact Option.some_injective _ hx] at this
        exact absurd (beq_iff_eq.mp hpx) (habs x hmem)
      | none =>
        simp only [hidx]
    · rfl
  · intro ha hmem
    obtain ⟨x, hxmem, hxa⟩ := hmem
    cases hk : s.queueKey with
    | none =>
      have hq0 : queueOf s = [] := by rw [queueOf, hk]; rfl
      rw [hq0] at hxmem
      simp at hxmem
    | some q =>
      have hguard : a ≠ "" ∧ s.queueKey.isSome := ⟨ha, by rw [hk]; rfl⟩
      have hpx : (fun queueElement =>
          queueElement.params.appName == a) x = true := by simp [hxa]
      obtain ⟨i, hi⟩ := findIdxOpt_isSome_of_mem
        (p := fun queueElement => queueElement.params.appName == a) hxmem hpx
      have hlt : i < (queueOf s).length := findIdxOpt_lt_length hi
      simp only [removeFromQueue, if_pos hguard, hi]
      show ((queueOf s).eraseIdx i).length + 1 = (queueOf s).length
      rw [List.length_eraseIdx_of_lt hlt]
      omega

/-- C8 witness: removing the absent name `zz` leaves the concrete queue
untouched; removing `g1` shrinks it by one. -/
theorem C8_remove_frame_witness :
    (removeFromQueue stateIdleQ "zz").queueKey = stateIdleQ.queueKey ∧
    (queueOf (removeFromQueue stateIdleQ "g1")).length + 1 =
      (queueOf stateIdleQ).length :=
  ⟨(C8_remove_frame stateIdleQ "zz").2.2.1 (by decide),
   (C8_remove_frame stateIdleQ "g1").2.2.2 (by decide)
     ⟨taskG1, by decide, by decide⟩⟩

/-! ### Claim C9 -/

/-- C9: `removeFromQueue` emits the `status = 'done'` notification and the
queue-changed notification exactly when `appName` is non-empty and the
store's `queue` key exists — also when nothing matched and nothing was
removed; with an empty `appName` or an absent `queue` key it is the
identity: no notification, no store write, no log line. -/
theorem C9_remove_notifications :
    ∀ (s : DMState) (a : String),
      (a ≠ "" → s.queueKey.isSome →
        ∃ q, (removeFromQueue s a).messages = s.messages ++
          [FrontendMessage.gameStatusUpdate a none none "done",
           FrontendMessage.changedDMQueueInformation q])
      ∧ (a = "" → removeFromQueue s a = s)
      ∧ (s.queueKey = none → removeFromQueue s a = s) := by
  intro s a
  refine ⟨?_, ?_, ?_⟩
  · intro ha hk
    have hguard : a ≠ "" ∧ s.queueKey.isSome := ⟨ha, hk⟩
    cases hidx : findIdxOpt
        (fun queueElement => queueElement.params.appName == a)
        (queueOf s) with
    | some i =>
      simp only [removeFromQueue, if_pos hguard, hidx]
      exact ⟨(queueOf s).eraseIdx i, rfl⟩
    | none =>
      simp only [removeFromQueue, if_pos hguard, hidx]
      exact ⟨queueOf s, rfl⟩
  · intro ha
    rw [ha]
    exact removeFromQueue_empty_name s
  · intro hk
    exact removeFromQueue_no_queueKey s a hk

/-- C9 witness: on the concrete queue, removing the absent name `zz` still
emits both notifications, and removing the empty name is the identity. -/
theorem C9_remove_notifications_witness :
    (∃ q, (removeFromQueue stateIdleQ "zz").messages =
      stateIdleQ.messages ++
        [FrontendMessage.gameStatusUpdate "zz" none none "done",
         FrontendMessage.changedDMQueueInformation q]) ∧
    removeFromQueue stateIdleQ "" = stateIdleQ :=
  ⟨(C9_remove_notifications stateIdleQ "zz").1 (by decide) (by decide),
   (C9_remove_notifications stateIdleQ "").2.1 rfl⟩

/-! ### Claim C10 -/

/-- C10: in `addToFinished` a nullish status is recorded as `'abort'` only
on the overwrite path (`status ?? 'abort'`); on the append path the nullish
status is pushed unchanged. -/
theorem C10_nullish_status_fallback :
    ∀ (s : DMState) (e : DMQueueElement),
      (∀ i, findIdxOpt (sameAppName e) (finishedOf s) = some i →
        finishedOf (addToFinished s e none) =
          (finishedOf s).set i { e with status := some DMStatus.abort })
      ∧ (findIdxOpt (sameAppName e) (finishedOf s) = none →
        finishedOf (addToFinished s e none) =
          finishedOf s ++ [{ e with status := none }]) := by
  intro s e
  constructor
  · intro i h
    show upsertBy (sameAppName e) { e with status := some DMStatus.abort }
      { e with status := none } (finishedOf s) = _
    unfold upsertBy
    rw [h]
  · intro h
    show upsertBy (sameAppName e) { e with status := some DMStatus.abort }
      { e with status := none } (finishedOf s) = _
    unfold upsertBy
    rw [h]

/-- C10 witness: with a nullish status, overwriting the existing `g1` entry
records `'abort'`, while appending to an empty history keeps the status
nullish. -/
theorem C10_nullish_status_fallback_witness :
    finishedOf (addToFinished stateFin taskG1b none) =
      [{ taskG1b with status := some DMStatus.abort }] ∧
    finishedOf (addToFinished initialState taskG1 none) =
      [{ taskG1 with status := none }] := by
  constructor
  · have h := (C10_nullish_status_fallback stateFin taskG1b).1 0 (by decide)
    exact h.trans (by decide)
  · have h := (C10_nullish_status_fallback initialState taskG1).2 (by decide)
    exact h.trans (by decide)

end HyperPlayDM
